import Mathlib

/-!
Verification development for `currency_parser.py` (Flufer/Currency_parser).

The script is a linear pipeline: HTTP fetch of an XML document of
`<Record Date="dd.mm.yyyy"><Value>nn,nn</Value></Record>` elements,
parse into a date-sorted table, statistics, chart rendering and a CSV
export.  We embed each stage as a pure Lean function:

* network and XML decoding results are passed in as explicit values
  (`Option Payload`: `none` models a failed HTTP request, an
  `XmlRecord` models one `Record` element with its `Date` attribute and
  the text of its `Value` child, each possibly absent);
* Python `datetime` values are modelled by a `Date` structure ordered
  through an injective numeric key;
* Python floats are modelled by rationals (`ℚ`); the decimal strings
  the program actually handles denote rationals exactly;
* every Python exception that the source converts to `None` via its
  broad `except` is modelled by an `Option` returning `none`; the
  uncaught exceptions of the plot function are modelled by `Except`.
-/

namespace CurrencyParser

/-- Calendar date as produced by `datetime.strptime(date, '%d.%m.%Y')`. -/
structure Date where
  y : ℕ
  m : ℕ
  d : ℕ
deriving DecidableEq, Repr

/-- Numeric key that orders dates.  For the ranges `strptime` accepts
(`1 ≤ d ≤ 31`, `1 ≤ m ≤ 12`) it is strictly monotone in the
lexicographic order of `(y, m, d)`, so sorting by `key` models sorting
by the `datetime` value. -/
def Date.key (dt : Date) : ℕ := dt.y * 403 + dt.m * 31 + dt.d

/-- One row of the dataframe built in `get_currency_rate`:
`{'date': datetime, 'rate': float}`. -/
structure RateRecord where
  date : Date
  rate : ℚ
deriving DecidableEq, Repr

/-- One `Record` element of the response document.  `dateAttr` is
`record.get('Date')` (absent attribute gives `None`); `valueText` is
the text of the `Value` child, `none` when the child is missing or has
no text (both make `record.find('Value').text.replace` raise). -/
structure XmlRecord where
  dateAttr : Option String
  valueText : Option String
deriving DecidableEq, Repr

/-- Outcome of `ET.fromstring(response.content)`: either the document
does not parse as XML (`malformed`, the raised `ParseError` is caught
by the broad `except`) or it yields a list of `Record` elements. -/
inductive Payload where
  | malformed : Payload
  | doc : List XmlRecord → Payload
deriving DecidableEq, Repr

/-! ### Character-level primitives shared by the date, float and CSV
parsers. -/

/-- Digit character of a value below ten. -/
def digitToChar (d : ℕ) : Char := Char.ofNat (48 + d)

/-- Inverse of `digitToChar`: `'0'`–`'9'` to its value, else `none`. -/
def charToDigit (c : Char) : Option ℕ :=
  if 48 ≤ c.toNat ∧ c.toNat ≤ 57 then some (c.toNat - 48) else none

/-- All characters must be digits. -/
def digitsOf : List Char → Option (List ℕ)
  | [] => some []
  | c :: cs =>
    match charToDigit c, digitsOf cs with
    | some d, some ds => some (d :: ds)
    | _, _ => none

/-- Value of a big-endian digit list. -/
def evalDigits (ds : List ℕ) : ℕ := ds.foldl (fun a d => a * 10 + d) 0

/-- Parse a non-empty all-digit character list as a natural number,
as Python `int`/`strptime` field parsing does. -/
def natParse (cs : List Char) : Option ℕ :=
  match cs with
  | [] => none
  | _ => (digitsOf cs).map evalDigits

/-- Split a character list at the first occurrence of `c`, returning
the parts before and after it; `none` when `c` does not occur. -/
def splitOnce (c : Char) : List Char → Option (List Char × List Char)
  | [] => none
  | x :: xs =>
    if x = c then some ([], xs)
    else (splitOnce c xs).map (fun p => (x :: p.1, p.2))

/-- Model of `datetime.strptime(s, '%d.%m.%Y')`: two dot-separated
all-digit day and month fields in calendar range and a year field.
(The model does not re-check day counts of individual months;
the claims below never depend on that refinement.) -/
def parseDateChars (cs : List Char) : Option Date :=
  match splitOnce '.' cs with
  | none => none
  | some (dC, rest) =>
    match splitOnce '.' rest with
    | none => none
    | some (mC, yC) =>
      match natParse dC, natParse mC, natParse yC with
      | some d, some m, some y =>
        if 1 ≤ d ∧ d ≤ 31 ∧ 1 ≤ m ∧ m ≤ 12 then some ⟨y, m, d⟩ else none
      | _, _, _ => none

/-- Unsigned decimal numeral: either all digits, or an integer part,
a dot and a fraction part. -/
def parseUnsignedRat (cs : List Char) : Option ℚ :=
  match splitOnce '.' cs with
  | none => (natParse cs).map (fun n => (n : ℚ))
  | some (iC, fC) =>
    match natParse iC, natParse fC with
    | some a, some b => some ((a : ℚ) + (b : ℚ) / (10 : ℚ) ^ fC.length)
    | _, _ => none

/-- Model of Python `float(s)` on the decimal numerals the provider
emits: an optional leading minus sign and an unsigned decimal numeral.
Anything else is `none` (`float` raises `ValueError`). -/
def parseRatChars (cs : List Char) : Option ℚ :=
  match cs with
  | [] => none
  | c :: rest =>
    if c = '-' then (parseUnsignedRat rest).map (fun q => -q)
    else parseUnsignedRat (c :: rest)

/-- `s.replace(',', '.')` of the source, character by character. -/
def replaceCommaDot (cs : List Char) : List Char :=
  cs.map (fun c => if c = ',' then '.' else c)

/-- Parsing of one `Record` element (`currency_parser.py` lines 45–50):
read the `Value` text (`AttributeError` when missing), the `Date`
attribute (`TypeError` in `strptime` when `None`), then
`strptime(date, '%d.%m.%Y')` and `float(rate.replace(',', '.'))`.
Any failure raises into the enclosing broad `except`, modelled as
`none`. -/
def parseRecord (x : XmlRecord) : Option RateRecord :=
  match x.valueText, x.dateAttr with
  | some v, some dstr =>
    match parseDateChars dstr.toList, parseRatChars (replaceCommaDot v.toList) with
    | some date, some rate => some ⟨date, rate⟩
    | _, _ => none
  | _, _ => none

/-- The `for record in root.findall('Record')` loop: every record must
parse, otherwise the raised exception aborts the whole function. -/
def parseRecords : List XmlRecord → Option (List RateRecord)
  | [] => some []
  | x :: xs =>
    match parseRecord x, parseRecords xs with
    | some r, some rs => some (r :: rs)
    | _, _ => none

/-- Ordered insertion of a record into a list sorted by date key. -/
def insertRec (a : RateRecord) : List RateRecord → List RateRecord
  | [] => [a]
  | b :: bs => if a.date.key ≤ b.date.key then a :: b :: bs else b :: insertRec a bs

/-- Sort of the dataframe by its `date` column, modelling
`df.sort_values('date')`.  The source uses pandas' default sort kind,
which orders by the key but guarantees no particular relative order
for equal dates; an executable model must still produce one concrete
output, and this one inserts in order.  The claim theorems therefore
rely only on the properties every comparison sort provides — the
result is ordered by date and is a permutation of the input — never
on this model's tie order. -/
def sortRecords : List RateRecord → List RateRecord
  | [] => []
  | a :: as' => insertRec a (sortRecords as')

/-- Parsing phase of `get_currency_rate` (lines 41–56): XML decoding,
the record loop, `pd.DataFrame(data)` and `sort_values('date')`.  On an
empty record list `pd.DataFrame([])` has no `date` column, so
`sort_values('date')` raises `KeyError` into the broad `except` and the
function returns `None`. -/
def parsePayload : Payload → Option (List RateRecord)
  | .malformed => none
  | .doc records =>
    match parseRecords records with
    | none => none
    | some data => if data.isEmpty then none else some (sortRecords data)

/-- `get_currency_rate` as seen from its callers: the fetch outcome
(`none` models `requests.get`/`raise_for_status` failing, caught by the
same broad `except`) followed by the parsing phase. -/
def get_currency_rate (fetchOutcome : Option Payload) : Option (List RateRecord) :=
  fetchOutcome.bind parsePayload

/-! ### `analyze_currency_data` -/

/-- The statistics printed by `analyze_currency_data`. -/
structure AnalysisSummary where
  count : ℕ
  minRate : ℚ
  maxRate : ℚ
  mean : ℚ
  first : ℚ
  last : ℚ
  change : ℚ
  changePercent : ℚ
deriving DecidableEq, Repr

/-- `df['rate'].min()` on a non-empty column. -/
def listMin : List ℚ → ℚ
  | [] => 0
  | x :: xs => xs.foldl min x

/-- `df['rate'].max()` on a non-empty column. -/
def listMax : List ℚ → ℚ
  | [] => 0
  | x :: xs => xs.foldl max x

/-- `analyze_currency_data` (lines 96–115): on `None` or an empty
dataframe it prints a message and returns without computing anything
(modelled as `none`); otherwise it computes and prints the summary. -/
def analyze_currency_data (df : Option (List RateRecord)) : Option AnalysisSummary :=
  match df with
  | none => none
  | some [] => none
  | some (r :: rest) =>
    let rates := (r :: rest).map RateRecord.rate
    let first := r.rate
    let lastR := (r :: rest).getLast (by simp) |>.rate
    some { count := (r :: rest).length
           minRate := listMin rates
           maxRate := listMax rates
           mean := rates.sum / (rates.length : ℚ)
           first := first
           last := lastR
           change := lastR - first
           changePercent := (lastR - first) / first * 100 }

/-! ### `plot_currency_rate` -/

/-- Failure of the plot function.  The source has no emptiness check:
on an empty dataframe `df['date'].min()` is `NaT` and the `.strftime`
call in the title raises before any file is written; the exception
escapes `plot_currency_rate` uncaught. -/
inductive RenderError where
  | emptySeries : RenderError
deriving DecidableEq, Repr

/-- `df['date'].min().strftime(...)` of the title (line 74). -/
def dateMinKey : List RateRecord → Except RenderError ℕ
  | [] => .error .emptySeries
  | r :: rs => .ok (((r :: rs).map (fun x => x.date.key)).foldl min r.date.key)

/-- `df['date'].max().strftime(...)` of the title (line 74). -/
def dateMaxKey : List RateRecord → Except RenderError ℕ
  | [] => .error .emptySeries
  | r :: rs => .ok (((r :: rs).map (fun x => x.date.key)).foldl max r.date.key)

/-- `df['rate'].iloc[-1]` of the annotation (line 82). -/
def lastRate : List RateRecord → Except RenderError ℚ
  | [] => .error .emptySeries
  | r :: rs => .ok (((r :: rs).getLast (by simp)).rate)

/-- `plot_currency_rate` (lines 62–94), returning the list of image
files written.  The title (needs `min`/`max` of the dates) and the
annotation (needs the last rate) are evaluated first; `plt.savefig`
runs only afterwards and only when `save_path` is given, so a failing
call writes no file. -/
def plot_currency_rate (df : List RateRecord) (currency_name : String)
    (save_path : Option String) : Except RenderError (List String) := do
  let _ ← dateMinKey df
  let _ ← dateMaxKey df
  let _ ← lastRate df
  let _ := currency_name
  match save_path with
  | some p => pure [p]
  | none => pure []

/-- Files written by a finished plot call: an aborted call (error)
writes none. -/
def filesWritten (res : Except RenderError (List String)) : List String :=
  match res with
  | .ok l => l
  | .error _ => []

/-! ### CSV export (`df.to_csv(csv_filename, index=False)`) and its
re-reader.

The writer serializes the dataframe the way `to_csv` does: a header
line `date,rate`, then one line per record with the date in padded
ISO form `yyyy-mm-dd` and the rate as a decimal numeral (sign, integer
part, dot, fraction) that denotes the rate exactly.  The file is
modelled as its list of lines, each line a character list.

The reader is not part of the source (the spec's round-trip property
re-reads the file); it is the evident inverse: skip the header, split
each line at the comma, parse the date and the decimal numeral. -/

/-- Big-endian digit characters of `n` (empty for `0`). -/
def natToChars (n : ℕ) : List Char :=
  ((Nat.digits 10 n).map digitToChar).reverse

/-- Digit characters of `n`, at least one (`"0"` for `0`). -/
def natToChars0 (n : ℕ) : List Char :=
  if n = 0 then ['0'] else natToChars n

/-- Left-pad with `'0'` to width `w`. -/
def padZero (w : ℕ) (cs : List Char) : List Char :=
  List.replicate (w - cs.length) '0' ++ cs

/-- ISO form `yyyy-mm-dd` used by `to_csv` for the date column. -/
def dateToChars (dt : Date) : List Char :=
  padZero 4 (natToChars dt.y) ++ '-' :: (padZero 2 (natToChars dt.m) ++ '-' :: padZero 2 (natToChars dt.d))

/-- Decimal exponent used to serialize a rate `q`: the denominator
itself.  When `q.den` divides a power of ten at all it divides
`10 ^ q.den`, so `q * 10 ^ q.den` is an integer. -/
def decExp (q : ℚ) : ℕ := q.den

/-- `q` denotes a terminating decimal (its denominator divides a power
of ten).  Every value Python's `float` produced from a decimal numeral
is of this shape in the rational model. -/
def IsDecimal (q : ℚ) : Prop := (q.den : ℕ) ∣ 10 ^ decExp q

instance (q : ℚ) : Decidable (IsDecimal q) := by
  unfold IsDecimal; infer_instance

/-- Serialize a rate as a decimal numeral: sign of the scaled integer
`m = (q * 10 ^ decExp q).num`, integer part `|m| / 10^k`, a dot, and
the fraction `|m| % 10^k` padded to exactly `k` digits. -/
def ratToChars (q : ℚ) : List Char :=
  let k := decExp q
  let m := (q * (10 : ℚ) ^ k).num
  let body := natToChars0 (m.natAbs / 10 ^ k) ++ '.' :: padZero k (natToChars (m.natAbs % 10 ^ k))
  if m < 0 then '-' :: body else body

/-- Header line `date,rate` written by `to_csv`. -/
def headerChars : List Char := "date,rate".toList

/-- One data line: date cell, comma, rate cell. -/
def rowChars (r : RateRecord) : List Char :=
  dateToChars r.date ++ ',' :: ratToChars r.rate

/-- The exported file (its lines): header, then one row per record in
dataframe order. -/
def write_csv (rs : List RateRecord) : List (List Char) :=
  headerChars :: rs.map rowChars

/-- Re-parse a date cell `yyyy-mm-dd`. -/
def parseDateCsv (cs : List Char) : Option Date :=
  match splitOnce '-' cs with
  | none => none
  | some (yC, rest) =>
    match splitOnce '-' rest with
    | none => none
    | some (mC, dC) =>
      match natParse yC, natParse mC, natParse dC with
      | some y, some m, some d => some ⟨y, m, d⟩
      | _, _, _ => none

/-- Re-parse one data line. -/
def parseRowChars (cs : List Char) : Option RateRecord :=
  match splitOnce ',' cs with
  | none => none
  | some (dC, rC) =>
    match parseDateCsv dC, parseRatChars rC with
    | some date, some rate => some ⟨date, rate⟩
    | _, _ => none

/-- Parse every data line; any bad line fails the read. -/
def readRows : List (List Char) → Option (List RateRecord)
  | [] => some []
  | l :: ls =>
    match parseRowChars l, readRows ls with
    | some r, some rs => some (r :: rs)
    | _, _ => none

/-- Re-read the exported file: check the header, parse every row. -/
def read_csv (lines : List (List Char)) : Option (List RateRecord) :=
  match lines with
  | [] => none
  | h :: rows => if h = headerChars then readRows rows else none

/-! ### Orchestration: `main` and the `__main__` default run -/

/-- `CURRENCY_CODES` of `main`. -/
def CURRENCY_CODES : List (String × String) :=
  [("USD", "R01235"), ("EUR", "R01239"), ("GBP", "R01035"), ("CNY", "R01375")]

/-- Command-line arguments after `argparse`: `--currency` (checked
against the `choices` list), `--days` (any integer, no constraint),
`--output`. -/
structure Args where
  currency : String
  days : ℤ
  output : String
deriving DecidableEq, Repr

/-- Observable step of a program run. -/
inductive RunEvent where
  | argError : RunEvent
  | fetch : String → ℤ → RunEvent
  | analyze : RunEvent
  | chart : String → RunEvent
  | csv : String → RunEvent
  | failMsg : RunEvent
deriving DecidableEq, Repr

/-- `main` (lines 117–159) as the sequence of steps it performs, given
the fetch outcome the network would produce.  `argparse` rejects a
currency outside `choices` before the body runs; the day count is
passed to `get_currency_rate` unexamined; on a `None` or empty
dataframe the body prints the failure message, otherwise it analyzes,
saves the chart to `args.output` and exports
`f"{args.currency.lower()}_rates.csv"`. -/
def main_run (args : Args) (fetchOutcome : Option Payload) : List RunEvent :=
  match (CURRENCY_CODES.lookup args.currency) with
  | none => [.argError]
  | some code =>
    .fetch code args.days ::
      match get_currency_rate fetchOutcome with
      | none => [.failMsg]
      | some rs =>
        if rs.isEmpty then [.failMsg]
        else [.analyze, .chart args.output, .csv (args.currency.toLower ++ "_rates.csv")]

/-- The `__main__` block (lines 162–178): fetch USD over 30 days; only
when `df_usd is not None` analyze and chart USD and, still inside that
conditional, fetch EUR over 30 days and, when it is not `None`, analyze
and chart EUR. -/
def default_run (usdFetch eurFetch : Option Payload) : List RunEvent :=
  .fetch "R01235" 30 ::
    match get_currency_rate usdFetch with
    | none => []
    | some _ =>
      .analyze :: .chart "usd_rub_chart.png" ::
        .fetch "R01239" 30 ::
          match get_currency_rate eurFetch with
          | none => []
          | some _ => [.analyze, .chart "eur_rub_chart.png"]

/-! ## Helper lemmas: the stable sort -/

theorem length_insertRec (a : RateRecord) (l : List RateRecord) :
    (insertRec a l).length = l.length + 1 := by
  induction l with
  | nil => rfl
  | cons b bs ih =>
    simp only [insertRec]
    split
    · simp
    · simp [ih]

theorem length_sortRecords (l : List RateRecord) :
    (sortRecords l).length = l.length := by
  induction l with
  | nil => rfl
  | cons a as ih => simp [sortRecords, length_insertRec, ih]

theorem mem_insertRec {b a : RateRecord} {l : List RateRecord} :
    b ∈ insertRec a l ↔ b = a ∨ b ∈ l := by
  induction l with
  | nil => simp [insertRec]
  | cons c cs ih =>
    simp only [insertRec]
    split
    · simp
    · simp [ih]
      tauto

theorem mem_sortRecords {b : RateRecord} {l : List RateRecord} :
    b ∈ sortRecords l ↔ b ∈ l := by
  induction l with
  | nil => simp [sortRecords]
  | cons a as ih => simp [sortRecords, mem_insertRec, ih]

theorem pairwise_insertRec {a : RateRecord} {l : List RateRecord}
    (h : l.Pairwise (fun x y => x.date.key ≤ y.date.key)) :
    (insertRec a l).Pairwise (fun x y => x.date.key ≤ y.date.key) := by
  induction l with
  | nil => simp [insertRec]
  | cons b bs ih =>
    rw [List.pairwise_cons] at h
    simp only [insertRec]
    split
    · rename_i hab
      refine List.pairwise_cons.mpr ⟨?_, List.pairwise_cons.mpr h⟩
      intro c hc
      rcases List.mem_cons.mp hc with rfl | hc
      · exact hab
      · exact le_trans hab (h.1 c hc)
    · rename_i hab
      refine List.pairwise_cons.mpr ⟨?_, ih h.2⟩
      intro c hc
      rcases mem_insertRec.mp hc with rfl | hc
      · omega
      · exact h.1 c hc

theorem sorted_sortRecords (l : List RateRecord) :
    (sortRecords l).Pairwise (fun x y => x.date.key ≤ y.date.key) := by
  induction l with
  | nil => simp [sortRecords]
  | cons a as ih => exact pairwise_insertRec ih

theorem perm_insertRec (a : RateRecord) (l : List RateRecord) :
    (insertRec a l).Perm (a :: l) := by
  induction l with
  | nil => exact List.Perm.refl _
  | cons b bs ih =>
    simp only [insertRec]
    split
    · exact List.Perm.refl _
    · exact (List.Perm.cons b ih).trans (List.Perm.swap a b bs)

theorem perm_sortRecords (l : List RateRecord) :
    (sortRecords l).Perm l := by
  induction l with
  | nil => exact List.Perm.refl _
  | cons a as ih =>
    exact (perm_insertRec a (sortRecords as)).trans (List.Perm.cons a ih)

/-! ## Helper lemmas: the record loop -/

theorem parseRecords_length {xs : List XmlRecord} {l : List RateRecord}
    (h : parseRecords xs = some l) : l.length = xs.length := by
  induction xs generalizing l with
  | nil => simp [parseRecords] at h; simp [← h]
  | cons x xs ih =>
    simp only [parseRecords] at h
    rcases hx : parseRecord x with _ | r <;> rw [hx] at h
    · exact absurd h (by simp)
    · rcases hxs : parseRecords xs with _ | rs <;> rw [hxs] at h
      · exact absurd h (by simp)
      · cases h
        simp [ih hxs]

theorem parseRecords_none_of_mem {xs : List XmlRecord} {x : XmlRecord}
    (hmem : x ∈ xs) (hx : parseRecord x = none) : parseRecords xs = none := by
  induction xs with
  | nil => cases hmem
  | cons y ys ih =>
    rcases List.mem_cons.mp hmem with rfl | hmem
    · simp [parseRecords, hx]
    · simp only [parseRecords, ih hmem]
      rcases parseRecord y with _ | r <;> rfl

theorem parseRecords_mem {xs : List XmlRecord} {l : List RateRecord} {r : RateRecord}
    (h : parseRecords xs = some l) (hr : r ∈ l) :
    ∃ x ∈ xs, parseRecord x = some r := by
  induction xs generalizing l with
  | nil => simp [parseRecords] at h; subst h; cases hr
  | cons x xs ih =>
    simp only [parseRecords] at h
    rcases hx : parseRecord x with _ | r0 <;> rw [hx] at h
    · exact absurd h (by simp)
    · rcases hxs : parseRecords xs with _ | rs <;> rw [hxs] at h
      · exact absurd h (by simp)
      · cases h
        rcases List.mem_cons.mp hr with rfl | hr
        · exact ⟨x, List.mem_cons_self x xs, hx⟩
        · obtain ⟨y, hy, hyr⟩ := ih hxs hr
          exact ⟨y, List.mem_cons_of_mem x hy, hyr⟩

/-! ## Helper lemmas: digits and numerals -/

theorem charToDigit_digitToChar {d : ℕ} (h : d < 10) :
    charToDigit (digitToChar d) = some d := by
  interval_cases d <;> decide

theorem toNat_digitToChar {d : ℕ} (h : d < 10) :
    48 ≤ (digitToChar d).toNat ∧ (digitToChar d).toNat ≤ 57 := by
  interval_cases d <;> decide

theorem digitsOf_cons_zero (rest : List Char) :
    digitsOf ('0' :: rest) = (digitsOf rest).map (fun ds => 0 :: ds) := by
  rcases h : digitsOf rest with _ | ds <;>
    simp only [digitsOf, h, charToDigit] <;> rfl

theorem digitsOf_replicate_append (j : ℕ) (cs : List Char) :
    digitsOf (List.replicate j '0' ++ cs) =
      (digitsOf cs).map (fun ds => List.replicate j 0 ++ ds) := by
  induction j with
  | zero => simp
  | succ j ih =>
    rw [List.replicate_succ, List.cons_append, digitsOf_cons_zero, ih]
    rcases digitsOf cs with _ | ds <;> simp [List.replicate_succ]

theorem digitsOf_map_digitToChar {ds : List ℕ} (h : ∀ d ∈ ds, d < 10) :
    digitsOf (ds.map digitToChar) = some ds := by
  induction ds with
  | nil => rfl
  | cons d ds ih =>
    have hd : d < 10 := h d (List.mem_cons_self d ds)
    simp only [List.map_cons, digitsOf, charToDigit_digitToChar hd,
      ih (fun x hx => h x (List.mem_cons_of_mem d hx))]

theorem evalDigits_append_zeros (j : ℕ) (ds : List ℕ) :
    evalDigits (List.replicate j 0 ++ ds) = evalDigits ds := by
  induction j with
  | zero => rfl
  | succ j ih => simpa [List.replicate_succ, evalDigits] using ih

theorem evalDigits_reverse_eq_ofDigits (l : List ℕ) :
    evalDigits l.reverse = Nat.ofDigits 10 l := by
  induction l with
  | nil => rfl
  | cons d ds ih =>
    simp only [List.reverse_cons, evalDigits, List.foldl_append, List.foldl_cons,
      List.foldl_nil, Nat.ofDigits_cons]
    have : List.foldl (fun a d => a * 10 + d) 0 ds.reverse = Nat.ofDigits 10 ds := ih
    rw [this]
    ring

theorem digitsOf_natToChars (n : ℕ) :
    digitsOf (natToChars n) = some ((Nat.digits 10 n).reverse) := by
  unfold natToChars
  rw [← List.map_reverse]
  exact digitsOf_map_digitToChar
    (fun d hd => Nat.digits_lt_base (by norm_num) (List.mem_reverse.mp hd))

theorem evalDigits_reverse_digits (n : ℕ) :
    evalDigits ((Nat.digits 10 n).reverse) = n := by
  rw [evalDigits_reverse_eq_ofDigits, Nat.ofDigits_digits]

theorem length_padZero (w : ℕ) (cs : List Char) :
    (padZero w cs).length = max w cs.length := by
  simp [padZero]
  omega

theorem natParse_of_ne_nil {cs : List Char} (h : cs ≠ []) :
    natParse cs = (digitsOf cs).map evalDigits := by
  cases cs with
  | nil => exact absurd rfl h
  | cons c cs => rfl

theorem natParse_padZero_natToChars {w n : ℕ} (h : 1 ≤ w ∨ n ≠ 0) :
    natParse (padZero w (natToChars n)) = some n := by
  have hnil : padZero w (natToChars n) ≠ [] := by
    rcases h with hw | hn
    · intro he
      have := congrArg List.length he
      rw [length_padZero] at this
      simp at this
      omega
    · intro he
      have hd : Nat.digits 10 n ≠ [] := Nat.digits_ne_nil_iff_ne_zero.mpr hn
      have : natToChars n ≠ [] := by
        unfold natToChars
        simp [hd]
      unfold padZero at he
      exact this (List.append_eq_nil.mp he).2
  rw [natParse_of_ne_nil hnil]
  unfold padZero
  rw [digitsOf_replicate_append, digitsOf_natToChars]
  simp [evalDigits_append_zeros, evalDigits_reverse_digits]

theorem natParse_natToChars0 (n : ℕ) :
    natParse (natToChars0 n) = some n := by
  by_cases hn : n = 0
  · subst hn; decide
  · have : natToChars0 n = padZero 0 (natToChars n) := by
      simp [natToChars0, hn, padZero]
    rw [this, natParse_padZero_natToChars (Or.inr hn)]

theorem mem_natToChars_toNat {c : Char} {n : ℕ} (h : c ∈ natToChars n) :
    48 ≤ c.toNat ∧ c.toNat ≤ 57 := by
  unfold natToChars at h
  rw [List.mem_reverse, List.mem_map] at h
  obtain ⟨d, hd, rfl⟩ := h
  exact toNat_digitToChar (Nat.digits_lt_base (by norm_num) hd)

theorem mem_natToChars0_toNat {c : Char} {n : ℕ} (h : c ∈ natToChars0 n) :
    48 ≤ c.toNat ∧ c.toNat ≤ 57 := by
  unfold natToChars0 at h
  split at h
  · rcases List.mem_singleton.mp h with rfl
    decide
  · exact mem_natToChars_toNat h

theorem mem_padZero_toNat {c : Char} {w : ℕ} {cs : List Char}
    (h : c ∈ padZero w cs) (hcs : ∀ x ∈ cs, 48 ≤ x.toNat ∧ x.toNat ≤ 57) :
    48 ≤ c.toNat ∧ c.toNat ≤ 57 := by
  unfold padZero at h
  rcases List.mem_append.mp h with h | h
  · rcases List.eq_of_mem_replicate h with rfl
    decide
  · exact hcs c h

theorem ne_of_toNat_lt {c c2 : Char} (h : 48 ≤ c.toNat) (h2 : c2.toNat < 48) :
    c ≠ c2 := by
  intro he
  subst he
  omega

theorem splitOnce_append {c : Char} {a : List Char} (b : List Char)
    (hc : c ∉ a) : splitOnce c (a ++ c :: b) = some (a, b) := by
  induction a with
  | nil => simp [splitOnce]
  | cons x xs ih =>
    have hx : x ≠ c := fun he => hc (he ▸ List.mem_cons_self x xs)
    simp only [List.cons_append, splitOnce, if_neg hx, List.append_eq,
      ih (fun hm => hc (List.mem_cons_of_mem x hm))]
    rfl

/-! ## Helper lemmas: CSV serialization round trip -/


theorem natToChars0_ne_nil (n : ℕ) : natToChars0 n ≠ [] := by
  unfold natToChars0
  split
  · simp
  · rename_i hn
    unfold natToChars
    simp [Nat.digits_ne_nil_iff_ne_zero.mpr hn]

theorem not_mem_padZero_natToChars {c : Char} (hc : c.toNat < 48) (w n : ℕ) :
    c ∉ padZero w (natToChars n) := by
  intro h
  have := mem_padZero_toNat h (fun x hx => mem_natToChars_toNat hx)
  omega

theorem not_mem_natToChars0 {c : Char} (hc : c.toNat < 48) (n : ℕ) :
    c ∉ natToChars0 n := by
  intro h
  have := mem_natToChars0_toNat h
  omega

theorem length_natToChars_le {B k : ℕ} (h : B < 10 ^ k) :
    (natToChars B).length ≤ k := by
  unfold natToChars
  simp only [List.length_reverse, List.length_map]
  by_cases hB : B = 0
  · subst hB; simp
  · rw [Nat.digits_len 10 B (by norm_num) hB]
    have := Nat.log_lt_of_lt_pow hB h
    omega

theorem isDecimal_cast_num {q : ℚ} (h : IsDecimal q) :
    (((q * (10:ℚ) ^ decExp q).num : ℚ)) = q * (10:ℚ) ^ decExp q := by
  obtain ⟨t, ht⟩ := h
  have hden : ((q.den : ℚ)) ≠ 0 := by positivity
  have h10 : ((10:ℚ)) ^ decExp q = (q.den : ℚ) * (t : ℚ) := by
    have h2 := congrArg (fun n : ℕ => (n : ℚ)) ht
    push_cast at h2
    exact h2
  have hq : q * (10:ℚ) ^ decExp q = (((q.num * t : ℤ) : ℚ)) := by
    rw [h10]
    calc q * ((q.den : ℚ) * (t : ℚ)) = (q.num : ℚ) / (q.den : ℚ) * ((q.den : ℚ) * (t : ℚ)) := by
          rw [Rat.num_div_den]
    _ = (((q.num * t : ℤ) : ℚ)) := by push_cast; field_simp; ring
  rw [hq, Rat.num_intCast]

theorem parseUnsignedRat_body (q : ℚ) :
    parseUnsignedRat
      (natToChars0 ((q * (10:ℚ) ^ decExp q).num.natAbs / 10 ^ decExp q) ++
        '.' :: padZero (decExp q)
          (natToChars ((q * (10:ℚ) ^ decExp q).num.natAbs % 10 ^ decExp q))) =
      some ((((q * (10:ℚ) ^ decExp q).num.natAbs : ℚ)) / (10:ℚ) ^ decExp q) := by
  set k := decExp q with hk
  set m := (q * (10:ℚ) ^ k).num with hmdef
  set A := m.natAbs / 10 ^ k with hA
  set B := m.natAbs % 10 ^ k with hB
  have hBlt : B < 10 ^ k := Nat.mod_lt _ (by positivity)
  have hfrac_len : (padZero k (natToChars B)).length = k := by
    rw [length_padZero]
    exact Nat.max_eq_left (length_natToChars_le hBlt)
  have hdot : ('.' : Char) ∉ natToChars0 A := not_mem_natToChars0 (by decide) A
  have hsplit : splitOnce '.' (natToChars0 A ++ '.' :: padZero k (natToChars B)) =
      some (natToChars0 A, padZero k (natToChars B)) := splitOnce_append _ hdot
  have hkpos : 1 ≤ k := by
    rw [hk]
    exact q.den_pos
  unfold parseUnsignedRat
  rw [hsplit]
  simp only [natParse_natToChars0, natParse_padZero_natToChars (Or.inl hkpos)]
  congr 1
  rw [hfrac_len]
  have hAB : 10 ^ k * A + B = m.natAbs := Nat.div_add_mod m.natAbs (10 ^ k)
  have h10 : ((10:ℚ)) ^ k ≠ 0 := by positivity
  field_simp
  have := congrArg (fun n : ℕ => (n : ℚ)) hAB
  push_cast at this
  linarith [this]

theorem parseRat_ratToChars {q : ℚ} (h : IsDecimal q) :
    parseRatChars (ratToChars q) = some q := by
  set k := decExp q with hk
  set m := (q * (10:ℚ) ^ k).num with hmdef
  have hmq : ((m : ℚ)) = q * (10:ℚ) ^ k := isDecimal_cast_num h
  have h10 : ((10:ℚ)) ^ k ≠ 0 := by positivity
  have hqm : q = (m : ℚ) / (10:ℚ) ^ k := by
    rw [hmq]
    field_simp
  set A := m.natAbs / 10 ^ k with hA
  set B := m.natAbs % 10 ^ k with hB
  set body := natToChars0 A ++ '.' :: padZero k (natToChars B) with hbody
  have hbody_parse : parseUnsignedRat body = some ((m.natAbs : ℚ) / (10:ℚ) ^ k) :=
    parseUnsignedRat_body q
  rcases hne : natToChars0 A with _ | ⟨c, cs2⟩
  · exact absurd hne (natToChars0_ne_nil A)
  have hcmem : c ∈ natToChars0 A := by rw [hne]; exact List.mem_cons_self c cs2
  have hcdig := mem_natToChars0_toNat hcmem
  have hcne : c ≠ '-' := ne_of_toNat_lt hcdig.1 (by decide)
  have hbody_cons : body = c :: (cs2 ++ '.' :: padZero k (natToChars B)) := by
    rw [hbody, hne]
    rfl
  have hrt : ratToChars q = if m < 0 then '-' :: body else body := rfl
  rw [hrt]
  by_cases hneg : m < 0
  · rw [if_pos hneg]
    have hstep : parseRatChars ('-' :: body) = Option.map (fun x => -x) (parseUnsignedRat body) := by
      simp [parseRatChars]
    rw [hstep, hbody_parse]
    simp only [Option.map_some']
    congr 1
    rw [hqm, Int.cast_natAbs, abs_of_neg hneg]
    push_cast
    ring
  · rw [if_neg hneg]
    rw [hbody_cons]
    have hstep : parseRatChars (c :: (cs2 ++ '.' :: padZero k (natToChars B))) =
        parseUnsignedRat (c :: (cs2 ++ '.' :: padZero k (natToChars B))) := by
      simp [parseRatChars, hcne]
    rw [hstep, ← hbody_cons, hbody_parse]
    congr 1
    rw [hqm, Int.cast_natAbs, abs_of_nonneg (not_lt.mp hneg)]



theorem parseDateCsv_dateToChars (dt : Date) :
    parseDateCsv (dateToChars dt) = some dt := by
  have hy : ('-' : Char) ∉ padZero 4 (natToChars dt.y) :=
    not_mem_padZero_natToChars (by decide) 4 dt.y
  have hm : ('-' : Char) ∉ padZero 2 (natToChars dt.m) :=
    not_mem_padZero_natToChars (by decide) 2 dt.m
  have h1 : splitOnce '-' (dateToChars dt) =
      some (padZero 4 (natToChars dt.y),
        padZero 2 (natToChars dt.m) ++ '-' :: padZero 2 (natToChars dt.d)) := by
    unfold dateToChars
    exact splitOnce_append _ hy
  have h2 : splitOnce '-' (padZero 2 (natToChars dt.m) ++ '-' :: padZero 2 (natToChars dt.d)) =
      some (padZero 2 (natToChars dt.m), padZero 2 (natToChars dt.d)) :=
    splitOnce_append _ hm
  unfold parseDateCsv
  rw [h1]
  simp only [h2, natParse_padZero_natToChars (Or.inl (by norm_num : (1:ℕ) ≤ 4)),
    natParse_padZero_natToChars (Or.inl (by norm_num : (1:ℕ) ≤ 2))]

theorem mem_dateToChars_toNat {x : Char} {dt : Date} (hx : x ∈ dateToChars dt) :
    45 ≤ x.toNat := by
  have hpad : ∀ (w n : ℕ) (y : Char), y ∈ padZero w (natToChars n) → 45 ≤ y.toNat := by
    intro w n y hy
    have := mem_padZero_toNat hy (fun z hz => mem_natToChars_toNat hz)
    omega
  unfold dateToChars at hx
  rcases List.mem_append.mp hx with h | h
  · exact hpad _ _ _ h
  · rcases List.mem_cons.mp h with rfl | h
    · decide
    · rcases List.mem_append.mp h with h | h
      · exact hpad _ _ _ h
      · rcases List.mem_cons.mp h with rfl | h
        · decide
        · exact hpad _ _ _ h

theorem not_mem_dateToChars_comma (dt : Date) : (',' : Char) ∉ dateToChars dt := by
  intro hmem
  have h1 := mem_dateToChars_toNat hmem
  have h2 : (',' : Char).toNat = 44 := by decide
  omega

theorem parseRow_rowChars {r : RateRecord} (h : IsDecimal r.rate) :
    parseRowChars (rowChars r) = some r := by
  have hsplit : splitOnce ',' (rowChars r) = some (dateToChars r.date, ratToChars r.rate) := by
    unfold rowChars
    exact splitOnce_append _ (not_mem_dateToChars_comma r.date)
  unfold parseRowChars
  rw [hsplit]
  simp only [parseDateCsv_dateToChars, parseRat_ratToChars h]

theorem readRows_map_rowChars {rs : List RateRecord} (h : ∀ r ∈ rs, IsDecimal r.rate) :
    readRows (rs.map rowChars) = some rs := by
  induction rs with
  | nil => rfl
  | cons r rs ih =>
    simp only [List.map_cons, readRows, parseRow_rowChars (h r (List.mem_cons_self r rs)),
      ih (fun x hx => h x (List.mem_cons_of_mem r hx))]



/-! ## Claim theorems -/

/-- C1 counterexample: a valid payload containing zero well-formed
`Record` elements (every element of the empty list parses, vacuously)
does not yield a series of length 0 — the parse phase returns no
series at all. -/
theorem parse_zero_records_no_series :
    (parsePayload (Payload.doc [])).isSome = false := rfl

/-- C1 (amended): for every valid payload whose N `Record` elements
all parse, with N ≥ 1, the parse phase returns a series consisting of
exactly those N (date, rate) records — a permutation of the parsed
list — sorted ascending by date.  No tie order for equal dates is
claimed: the source's default sort kind gives no stability guarantee. -/
theorem parse_sorted_series (records : List XmlRecord) (data : List RateRecord)
    (hp : parseRecords records = some data) (hne : records ≠ []) :
    ∃ rs : List RateRecord, parsePayload (.doc records) = some rs ∧
      rs.length = records.length ∧
      rs.Pairwise (fun a b => a.date.key ≤ b.date.key) ∧
      rs.Perm data := by
  have hlen : data.length = records.length := parseRecords_length hp
  have hdne : data ≠ [] := by
    intro h
    subst h
    simp at hlen
    exact hne (List.length_eq_zero.mp hlen.symm)
  refine ⟨sortRecords data, ?_, ?_, sorted_sortRecords data, perm_sortRecords data⟩
  · cases data with
    | nil => exact absurd rfl hdne
    | cons a l => simp [parsePayload, hp]
  · rw [length_sortRecords, hlen]

/-- Witness for C1: a concrete two-record payload, out of date order. -/
theorem parse_sorted_series_witness :
    parseRecords [⟨some "02.01.2024", some "76"⟩, ⟨some "01.01.2024", some "75"⟩] =
        some [⟨⟨2024, 1, 2⟩, ((76 : ℕ) : ℚ)⟩, ⟨⟨2024, 1, 1⟩, ((75 : ℕ) : ℚ)⟩] ∧
    ([⟨some "02.01.2024", some "76"⟩, ⟨some "01.01.2024", some "75"⟩] : List XmlRecord) ≠ [] ∧
    (∃ rs : List RateRecord,
      parsePayload (.doc [⟨some "02.01.2024", some "76"⟩, ⟨some "01.01.2024", some "75"⟩]) =
          some rs ∧
      rs.length =
        ([⟨some "02.01.2024", some "76"⟩, ⟨some "01.01.2024", some "75"⟩] : List XmlRecord).length ∧
      rs.Pairwise (fun a b => a.date.key ≤ b.date.key) ∧
      rs.Perm [⟨⟨2024, 1, 2⟩, ((76 : ℕ) : ℚ)⟩, ⟨⟨2024, 1, 1⟩, ((75 : ℕ) : ℚ)⟩]) :=
  ⟨by decide, by decide, parse_sorted_series _ _ (by decide) (by decide)⟩

/-- C2: the parse phase is all-or-nothing: a malformed document gives
`None`, and a document containing any failing record (missing value
field, unparseable date or number) gives `None` — never a partial
series of the records that did parse. -/
theorem parse_all_or_nothing :
    parsePayload .malformed = none ∧
    ∀ (records : List XmlRecord) (x : XmlRecord),
      x ∈ records → parseRecord x = none → parsePayload (.doc records) = none := by
  refine ⟨rfl, fun records x hmem hx => ?_⟩
  simp [parsePayload, parseRecords_none_of_mem hmem hx]

/-- Witness for C2: one good record followed by a record with a
missing value field. -/
theorem parse_all_or_nothing_witness :
    (⟨some "02.01.2024", none⟩ : XmlRecord) ∈
        ([⟨some "01.01.2024", some "75,5"⟩, ⟨some "02.01.2024", none⟩] : List XmlRecord) ∧
    parseRecord ⟨some "02.01.2024", none⟩ = none ∧
    parsePayload (.doc [⟨some "01.01.2024", some "75,5"⟩, ⟨some "02.01.2024", none⟩]) = none :=
  ⟨by decide, rfl, parse_all_or_nothing.2 _ ⟨some "02.01.2024", none⟩ (by decide) rfl⟩

/-- C3: on the series with rates 100, 110, 90 in date order, analyze
computes min 90, max 110, mean 100, first 100, last 90, absolute
change −10 and percent change −10. -/
theorem analyze_example_series :
    analyze_currency_data
        (some [⟨⟨2024, 1, 1⟩, 100⟩, ⟨⟨2024, 1, 2⟩, 110⟩, ⟨⟨2024, 1, 3⟩, 90⟩]) =
      some ⟨3, 90, 110, 100, 100, 90, -10, -10⟩ := by
  simp only [analyze_currency_data, List.map_cons, List.map_nil, List.length_cons,
    List.length_nil, List.getLast, listMin, listMax, List.foldl, List.sum_cons,
    List.sum_nil, Option.some.injEq, AnalysisSummary.mk.injEq]
  norm_num

/-- C4 counterexample: with the USD fetch failing and a EUR payload
that would parse successfully, the default run never reaches the EUR
fetch. -/
theorem default_run_skips_eur :
    RunEvent.fetch "R01239" 30 ∉
      default_run none (some (.doc [⟨some "01.01.2024", some "75,5"⟩])) ∧
    get_currency_rate (some (.doc [⟨some "01.01.2024", some "75,5"⟩])) ≠ none := by
  decide

/-- C4 (amended): in the default no-argument run a USD failure aborts
the entire run: the trace stops at the USD fetch, so EUR is never
fetched, analyzed or charted (EUR runs only when the USD dataframe is
not `None`). -/
theorem default_run_aborts_on_usd_failure (u e : Option Payload)
    (hu : get_currency_rate u = none) :
    default_run u e = [RunEvent.fetch "R01235" 30] := by
  simp [default_run, hu]

/-- Witness for C4: failed USD fetch, good EUR payload. -/
theorem default_run_aborts_on_usd_failure_witness :
    get_currency_rate none = none ∧
    default_run none (some (.doc [⟨some "01.01.2024", some "75,5"⟩])) =
      [RunEvent.fetch "R01235" 30] :=
  ⟨rfl, default_run_aborts_on_usd_failure none
    (some (.doc [⟨some "01.01.2024", some "75,5"⟩])) rfl⟩

/-- C5 counterexample: with `--days -5` the orchestrator issues the
fetch with day count −5 (and then merely prints the failure message);
no InvalidArgument-style failure occurs before the fetch. -/
theorem main_fetches_nonpositive_days :
    main_run ⟨"USD", -5, "currency_chart.png"⟩ none =
      [RunEvent.fetch "R01235" (-5), RunEvent.failMsg] := by decide

/-- C5 (amended): the orchestrator performs no validation of the day
count: for every recognized currency symbol and every non-positive day
count it still issues the fetch with exactly that day count. -/
theorem main_no_day_validation (args : Args) (f : Option Payload) (code : String)
    (hc : CURRENCY_CODES.lookup args.currency = some code) (_hd : args.days ≤ 0) :
    RunEvent.fetch code args.days ∈ main_run args f := by
  simp [main_run, hc]

/-- Witness for C5: USD with day count −5. -/
theorem main_no_day_validation_witness :
    CURRENCY_CODES.lookup "USD" = some "R01235" ∧ ((-5 : ℤ) ≤ 0) ∧
    RunEvent.fetch "R01235" (-5) ∈ main_run ⟨"USD", -5, "currency_chart.png"⟩ none :=
  ⟨by decide, by decide,
    main_no_day_validation ⟨"USD", -5, "currency_chart.png"⟩ none "R01235" (by decide) (by decide)⟩

/-- C6: analyze on the absent dataframe and on an empty series is a
no-op: it returns without computing any statistic, so the
change/percent-change division is never reached. -/
theorem analyze_empty_none :
    analyze_currency_data none = none ∧ analyze_currency_data (some []) = none :=
  ⟨rfl, rfl⟩

/-- C7: render on an empty series fails (the undefined date min/max
and last value raise before `savefig`), and the failing call produces
no image file at any output path. -/
theorem plot_empty_series_error (currency_name : String) (save_path : Option String) :
    plot_currency_rate [] currency_name save_path = .error .emptySeries ∧
    filesWritten (plot_currency_rate [] currency_name save_path) = [] :=
  ⟨rfl, rfl⟩

/-- C8: writing a series to the delimited file (header row `date,rate`,
one row per record) and re-reading that file reproduces the same
(date, rate) pairs in the same order, for every series whose rates are
terminating decimals (as every rate parsed from the provider's decimal
numerals is). -/
theorem csv_round_trip (rs : List RateRecord) (h : ∀ r ∈ rs, IsDecimal r.rate) :
    read_csv (write_csv rs) = some rs := by
  have hred : read_csv (write_csv rs) = readRows (rs.map rowChars) := by
    simp [read_csv, write_csv]
  rw [hred]
  exact readRows_map_rowChars h

/-- Witness for C8: a two-record series with fractional and negative
values. -/
theorem csv_round_trip_witness :
    (∀ r ∈ ([⟨⟨2024, 1, 1⟩, (151 : ℚ)/2⟩, ⟨⟨2023, 12, 31⟩, -(3 : ℚ)/4⟩] : List RateRecord),
      IsDecimal r.rate) ∧
    read_csv (write_csv [⟨⟨2024, 1, 1⟩, (151 : ℚ)/2⟩, ⟨⟨2023, 12, 31⟩, -(3 : ℚ)/4⟩]) =
      some [⟨⟨2024, 1, 1⟩, (151 : ℚ)/2⟩, ⟨⟨2023, 12, 31⟩, -(3 : ℚ)/4⟩] := by
  have h : ∀ r ∈ ([⟨⟨2024, 1, 1⟩, (151 : ℚ)/2⟩, ⟨⟨2023, 12, 31⟩, -(3 : ℚ)/4⟩] : List RateRecord),
      IsDecimal r.rate := by
    intro r hr
    fin_cases hr <;> norm_num [IsDecimal, decExp]
  exact ⟨h, csv_round_trip _ h⟩

/-- C9 counterexample: a record whose value field is `-1` parses
successfully into a series whose rate is not positive, so parse does
not enforce the `rate > 0` invariant. -/
theorem parse_accepts_negative_rate :
    parsePayload (.doc [⟨some "01.01.2024", some "-1"⟩]) =
      some [⟨⟨2024, 1, 1⟩, -1⟩] ∧ ¬ ((0 : ℚ) < (-1 : ℚ)) := by decide

/-- C9 (amended): parse itself never checks positivity — every rate in
the returned series is the parsed value of some record of the payload,
so the invariant `rate > 0` holds exactly when every record's value
parses to a positive number. -/
theorem parse_rate_positive_of_inputs_positive (records : List XmlRecord)
    (rs : List RateRecord)
    (hpos : ∀ x ∈ records, ∀ r : RateRecord, parseRecord x = some r → 0 < r.rate)
    (hp : parsePayload (.doc records) = some rs) :
    ∀ r ∈ rs, 0 < r.rate := by
  intro r hr
  simp only [parsePayload] at hp
  rcases hd : parseRecords records with _ | data
  · rw [hd] at hp
    exact absurd hp (by simp)
  · simp only [hd] at hp
    by_cases he : data.isEmpty
    · rw [if_pos he] at hp
      exact absurd hp (by simp)
    · rw [if_neg he] at hp
      injection hp with hp
      subst hp
      obtain ⟨x, hx, hxr⟩ := parseRecords_mem hd (mem_sortRecords.mp hr)
      exact hpos x hx r hxr

/-- Witness for C9: a one-record payload with a positive value; the
rate of the one record of the returned series is positive. -/
theorem parse_rate_positive_of_inputs_positive_witness :
    0 < ((⟨⟨2024, 1, 1⟩, ((75 : ℕ) : ℚ)⟩ : RateRecord)).rate := by
  have hpos : ∀ x ∈ ([⟨some "01.01.2024", some "75"⟩] : List XmlRecord),
      ∀ r : RateRecord, parseRecord x = some r → 0 < r.rate := by
    intro x hx r hr
    rcases List.mem_singleton.mp hx with rfl
    rw [show parseRecord ⟨some "01.01.2024", some "75"⟩ =
        some ⟨⟨2024, 1, 1⟩, ((75 : ℕ) : ℚ)⟩ from by decide] at hr
    injection hr with hr
    subst hr
    norm_num
  exact parse_rate_positive_of_inputs_positive _ _ hpos (by decide) _
    (List.mem_singleton.mpr rfl)

/-- C10: a well-formed response document with zero Record elements
makes the parse phase return the generic failure value `None` (the
empty dataframe lacks the `date` column, so the sort raises inside the
catch-all), not a successful empty series. -/
theorem parse_zero_records_none : parsePayload (Payload.doc []) = none := rfl

end CurrencyParser
